import Mathlib

/-!
Verification development for the `tether` repository: a proof-gated
co-signing service (`src/cosigner/src/main.rs`) and a feature-encoding
prover CLI (`src/prover/src/main.rs`).

Modelling conventions:
* Rust `u64` values are `Nat` with arithmetic taken modulo `2 ^ 64`
  (release-mode wrapping semantics) wherever overflow matters.
* Rust `i32` model-output values are `Int` (only their ordering is used).
* Rust `String` transaction fields are modelled by their UTF-8 byte
  sequences (`List Nat`), since the code only ever takes `as_bytes()`.
* File I/O for the nonce ledger is modelled by an explicit `FileState`
  value threaded through the operations; the `path` field of the source
  `NonceState` is subsumed by this explicit threading.
* External collaborators (hex decoding, SNARK deserialization and
  verification, JSON parsing of `ProgramIO`, keccak256, ECDSA signing,
  the system clock) are fields of an `Env` record: the pipeline is
  proved for every behaviour of these opaque services.
-/

set_option maxHeartbeats 1000000

/-- Size of a Rust `u64` value space: `2 ^ 64`. -/
def U64MOD : Nat := 18446744073709551616

/-! ## Nonce ledger (`NonceState` in `src/cosigner/src/main.rs`) -/

/-- State of the nonce ledger's backing file, as distinguished by
`NonceState::load`: the file may be absent (`File::open` fails), unreadable
(`read_to_string` fails), corrupt (`serde_json::from_str` fails), or hold a
stored counter value. -/
inductive FileState
  | absent
  | unreadable
  | corrupt
  | stored (counter : Nat)
  deriving DecidableEq

/-- Persistent nonce state backed by a JSON file (source: `struct NonceState`).
The `path` field is modelled by passing the backing `FileState` explicitly. -/
structure NonceState where
  counter : Nat
  deriving DecidableEq

/-- Embeds `NonceState::load`: a stored counter is returned as-is; an absent,
unreadable or corrupt file defaults to counter `0` (not a fatal error). -/
def NonceState.load : FileState → NonceState
  | .stored c => { counter := c }
  | _ => { counter := 0 }

/-- Embeds `NonceState::save`: writes the current counter to the file. -/
def NonceState.save (s : NonceState) : FileState := .stored s.counter

/-- Embeds `NonceState::next_nonce`: increments the in-memory counter
(wrapping `u64` addition), attempts to persist (`saveOk` models whether the
write succeeds; on failure the error is only logged and the old file state
persists), and returns the new counter value. -/
def NonceState.next_nonce (s : NonceState) (saveOk : Bool) (f : FileState) :
    Nat × NonceState × FileState :=
  let s' : NonceState := { counter := (s.counter + 1) % U64MOD }
  (s'.counter, s', if saveOk then s'.save else f)

/-- Runs `k` sequential `next_nonce` calls (with every persistence attempt
succeeding), returning the list of issued nonces in order together with the
final in-memory state and file state. -/
def issueRun (s : NonceState) (f : FileState) : Nat → List Nat × NonceState × FileState
  | 0 => ([], s, f)
  | k + 1 =>
    let r := s.next_nonce true f
    let rest := issueRun r.2.1 r.2.2 k
    (r.1 :: rest.1, rest.2)

/-! ## Arg-max selection (`Iterator::max_by` over `enumerate()`)

Both binaries select a predicted class by
`output.iter().enumerate().max_by(|a, b| a.1.cmp(b.1))` (cosigner, over
fixed-point `i32` values) respectively
`max_by(|a, b| a.1.partial_cmp(b.1).unwrap_or(Equal))` (prover, over the
external engine's real-valued outputs, modelled here by integers — on
non-NaN inputs `partial_cmp` coincides with a total order comparison).
Rust's `Iterator::max_by` keeps the *later* element when the comparison is
`Equal`, which the fold step below reproduces exactly. -/

/-- One step of Rust's `max_by` fold: keep the accumulator only when it
compares strictly greater, otherwise take the new element (so ties go to the
later element). -/
def amStep (a b : Nat × Int) : Nat × Int := if b.2 < a.2 then a else b

/-- Rust's `max_by` on a non-empty enumerated iterator: fold `amStep` over
the remaining elements starting from the first. -/
def amFold (a : Nat × Int) (ps : List (Nat × Int)) : Nat × Int := ps.foldl amStep a

/-- The cosigner's `pred_idx` computation (src/cosigner/src/main.rs, step 3)
on a non-empty output list `o :: os`: `enumerate` pairs each value with its
index and `max_by` selects a maximal pair. -/
def argmaxNE (o : Int) (os : List Int) : Nat := (amFold (0, o) (os.enumFrom 1)).1

/-- The prover's local pre-check selection (src/prover/src/main.rs, `main`):
`enumerate().max_by(...)`, `none` on an empty output. -/
def prover_argmax (l : List Int) : Option (Nat × Int) :=
  match l with
  | [] => none
  | o :: os => some (amFold (0, o) (os.enumFrom 1))

/-- Modelled from the spec: the spec's stated tie-break — "select the output
index with the maximum value (ties broken by first occurrence in iteration
order)". Written from the spec's words, for comparison with the source's
`max_by` behaviour. -/
def firstOccArgmax (l : List Int) : Option (Nat × Int) :=
  match l with
  | [] => none
  | o :: os => some ((os.enumFrom 1).foldl (fun a b => if a.2 < b.2 then b else a) (0, o))

/-! ## Prover-side feature validation and encoding (`src/prover/src/main.rs`) -/

/-- The seven categorical input features (source: `struct InputFeatures`,
all fields Rust `usize`). -/
structure InputFeatures where
  budget : Nat
  trust : Nat
  amount : Nat
  category : Nat
  velocity : Nat
  day : Nat
  time : Nat
  deriving DecidableEq

/-- The ordered check list of `validate_features`: feature name, its value,
and its inclusive upper bound. -/
def feature_checks (f : InputFeatures) : List (String × Nat × Nat) :=
  [("budget", f.budget, 15), ("trust", f.trust, 7), ("amount", f.amount, 15),
   ("category", f.category, 3), ("velocity", f.velocity, 7), ("day", f.day, 7),
   ("time", f.time, 3)]

/-- The exact error message `validate_features` formats for an out-of-range
feature (`\x27` is the ASCII apostrophe). -/
def mkRangeError (name : String) (val mx : Nat) : String :=
  "Feature \x27" ++ name ++ "\x27 value " ++ toString val ++
    " out of range (0..=" ++ toString mx ++ ")"

/-- The loop body of `validate_features`: return the formatted error for the
first violated bound, `ok` when every check passes. -/
def run_checks : List (String × Nat × Nat) → Except String Unit
  | [] => .ok ()
  | (name, val, mx) :: rest =>
    if val > mx then .error (mkRangeError name val mx) else run_checks rest

/-- Embeds `validate_features`. -/
def validate_features (f : InputFeatures) : Except String Unit :=
  run_checks (feature_checks f)

/-- The fixed iteration order of `build_input_vector`'s `feature_values`
array: (feature name, feature value) pairs. -/
def feature_values (f : InputFeatures) : List (String × Nat) :=
  [("budget", f.budget), ("trust", f.trust), ("amount", f.amount),
   ("category", f.category), ("velocity", f.velocity), ("day", f.day),
   ("time", f.time)]

/-- A vocabulary table (`HashMap<String, usize>` in the source), modelled by
its lookup function. -/
abbrev Vocab : Type := String → Option Nat

/-- The composed lookup key `format!("{feature_type}_{value}")`. -/
def feature_key (name : String) (value : Nat) : String :=
  name ++ "_" ++ toString value

/-- One iteration of `build_input_vector`'s loop: look the composed key up in
the vocabulary; if present and in bounds, set that index to `128`
(`1 << 7`, the fixed-point representation of `1.0` at scale 7); otherwise
leave the vector unchanged (missing keys and out-of-range indices are not
errors). -/
def applyFeature (vocab : Vocab) (v : List Int) (p : String × Nat) : List Int :=
  match vocab (feature_key p.1 p.2) with
  | some index => if index < 64 then v.set index 128 else v
  | none => v

/-- Embeds `build_input_vector`: start from `vec![0; 64]` and process the
seven features in order. -/
def build_input_vector (f : InputFeatures) (vocab : Vocab) : List Int :=
  (feature_values f).foldl (applyFeature vocab) (List.replicate 64 0)

/-! ## Cosigner data model and verify pipeline (`src/cosigner/src/main.rs`) -/

/-- Transaction details (source: `struct TxDetails`); the three Rust `String`
fields are modelled by their UTF-8 byte sequences, which is exactly how the
pipeline consumes them (`as_bytes()`). The source field `to` is called
`toAddr` here because `to` is a reserved word in Lean. -/
structure TxDetails where
  toAddr : List Nat
  amount : List Nat
  token : List Nat
  deriving DecidableEq

/-- A verification request (source: `struct VerifyRequest`). -/
structure VerifyRequest where
  proof : String
  program_io : String
  tx : TxDetails
  model_hash : String

/-- The decoded public I/O record (the `onnx_tracer::ProgramIO` the cosigner
parses from JSON); the pipeline only reads its ordered output sequence of
fixed-point `i32` values. -/
structure ProgramIo where
  output : List Int
  deriving DecidableEq

/-- A verification response (source: `struct VerifyResponse`). -/
structure VerifyResponse where
  approved : Bool
  signature : Option String
  nonce : Option Nat
  timestamp : Option Nat
  reason : Option String
  deriving DecidableEq

/-- HTTP-style status classification of the response
(`HttpResponse::Ok` / `::BadRequest` / `::Forbidden` in the source). -/
inductive HttpStatus
  | ok
  | badRequest
  | forbidden
  deriving DecidableEq

/-- Pipeline steps, recorded in order as the handler attempts them; used to
state temporal claims ("rejects before X is attempted", "never reaches
signing"). -/
inductive Step
  | modelCheck
  | proofHexDecode
  | snarkDeserialize
  | ioDecode
  | outputCheck
  | snarkVerify
  | nonceIssue
  | signing
  deriving DecidableEq

/-- The opaque external collaborators consumed by the cosigner, over an
abstract proof type `Snark`: hex decoding, proof deserialization, JSON
parsing of the public I/O, cryptographic proof verification, the keccak256
digest, ECDSA signing (with the process signing key folded in), and the
system clock. Errors carry the message string interpolated into the
response reason. -/
structure Env (Snark : Type) where
  hexDecode : String → Except String (List Nat)
  deserializeSnark : List Nat → Except String Snark
  parseProgramIo : String → Except String ProgramIo
  snarkVerify : Snark → ProgramIo → Except String Unit
  keccak256 : List Nat → List Nat
  ecdsaSign : List Nat → List Nat
  now : Nat

/-- The process-wide state the handler reads (source: `struct AppState`);
the verifier preprocessing and signing key are folded into `Env`, the nonce
ledger is passed explicitly. -/
structure AppState where
  model_hash : String

/-- Everything a single `verify_proof` invocation produces: the HTTP status,
the JSON response body, the nonce ledger state and backing file after the
call, and the ordered trace of attempted pipeline steps. -/
structure VerifyResult where
  status : HttpStatus
  response : VerifyResponse
  ns : NonceState
  file : FileState
  trace : List Step

/-- Big-endian 8-byte encoding of a `u64` (`u64::to_be_bytes`); the divisors
are `2^56`, `2^48`, `2^40`, `2^32`, `2^24`, `2^16`, `2^8`, written as
literals. -/
def u64be (n : Nat) : List Nat :=
  [n / 72057594037927936 % 256, n / 281474976710656 % 256,
   n / 1099511627776 % 256, n / 4294967296 % 256,
   n / 16777216 % 256, n / 65536 % 256, n / 256 % 256, n % 256]

/-- Lowercase hex digit for a nibble (used by `hex::encode`). -/
def hexDigit (n : Nat) : Char :=
  if n < 10 then Char.ofNat (48 + n) else Char.ofNat (87 + n)

/-- Lowercase hex encoding of a byte sequence (`hex::encode`). -/
def hexEncode (bytes : List Nat) : String :=
  String.mk (bytes.foldr (fun b acc => hexDigit (b / 16 % 16) :: hexDigit (b % 16) :: acc) [])

/-- The signing preimage built at step 5 of `verify_proof`:
`to || amount || token || nonce.to_be_bytes() || timestamp.to_be_bytes()`. -/
def signingPreimage (tx : TxDetails) (nonce timestamp : Nat) : List Nat :=
  tx.toAddr ++ tx.amount ++ tx.token ++ u64be nonce ++ u64be timestamp

/-- Modelled from the spec: "byte-concatenation of `tx.to` (UTF-8 bytes,
verbatim) ++ `tx.amount` ++ `tx.token` ++ nonce (8 bytes, big-endian
unsigned) ++ timestamp (8 bytes, big-endian unsigned)". Written from the
spec's words, for comparison with `signingPreimage`. -/
def specPreimage (tx : TxDetails) (nonce timestamp : Nat) : List Nat :=
  tx.toAddr ++ (tx.amount ++ (tx.token ++ (u64be nonce ++ u64be timestamp)))

/-- The signing step of `verify_proof`: keccak256 the preimage, then sign the
32-byte digest; returns (digest, signature). -/
def signApproval {Snark : Type} (env : Env Snark) (tx : TxDetails)
    (nonce timestamp : Nat) : List Nat × List Nat :=
  let hash := env.keccak256 (signingPreimage tx nonce timestamp)
  (hash, env.ecdsaSign hash)

/-- Embeds the `verify_proof` handler: model-hash check, proof hex decode,
proof deserialization, program-I/O parse, output policy check (empty /
arg-max), cryptographic verification, nonce issuance, signing. Each
rejection returns the source's exact response body and HTTP classification;
the trace records each step as it is attempted. -/
def verify_proof {Snark : Type} (env : Env Snark) (data : AppState)
    (req : VerifyRequest) (ns : NonceState) (saveOk : Bool) (file : FileState) :
    VerifyResult :=
  let tr0 := [Step.modelCheck]
  if req.model_hash ≠ data.model_hash then
    { status := .badRequest,
      response := ⟨false, none, none, none,
        some ("Model hash mismatch: prover=" ++ req.model_hash ++
          ", cosigner=" ++ data.model_hash)⟩,
      ns := ns, file := file, trace := tr0 }
  else
    let tr1 := tr0 ++ [Step.proofHexDecode]
    match env.hexDecode req.proof with
    | .error e =>
      { status := .badRequest,
        response := ⟨false, none, none, none, some ("Invalid proof hex: " ++ e)⟩,
        ns := ns, file := file, trace := tr1 }
    | .ok proof_bytes =>
      let tr2 := tr1 ++ [Step.snarkDeserialize]
      match env.deserializeSnark proof_bytes with
      | .error e =>
        { status := .badRequest,
          response := ⟨false, none, none, none,
            some ("Failed to deserialize proof: " ++ e)⟩,
          ns := ns, file := file, trace := tr2 }
      | .ok snark =>
        let tr3 := tr2 ++ [Step.ioDecode]
        match env.parseProgramIo req.program_io with
        | .error e =>
          { status := .badRequest,
            response := ⟨false, none, none, none,
              some ("Failed to deserialize program_io: " ++ e)⟩,
            ns := ns, file := file, trace := tr3 }
        | .ok program_io =>
          let tr4 := tr3 ++ [Step.outputCheck]
          match program_io.output with
          | [] =>
            { status := .forbidden,
              response := ⟨false, none, none, none, some "Empty model output"⟩,
              ns := ns, file := file, trace := tr4 }
          | o :: os =>
            if argmaxNE o os ≠ 0 then
              { status := .forbidden,
                response := ⟨false, none, none, none,
                  some "Model output is DENIED (class != 0)"⟩,
                ns := ns, file := file, trace := tr4 }
            else
              let tr5 := tr4 ++ [Step.snarkVerify]
              match env.snarkVerify snark program_io with
              | .error e =>
                { status := .forbidden,
                  response := ⟨false, none, none, none,
                    some ("Proof verification failed: " ++ e)⟩,
                  ns := ns, file := file, trace := tr5 }
              | .ok _ =>
                let tr6 := tr5 ++ [Step.nonceIssue]
                let (nonce, ns2, file2) := ns.next_nonce saveOk file
                let timestamp := env.now
                let tr7 := tr6 ++ [Step.signing]
                let sig := (signApproval env req.tx nonce timestamp).2
                { status := .ok,
                  response := ⟨true, some (hexEncode sig), some nonce,
                    some timestamp, none⟩,
                  ns := ns2, file := file2, trace := tr7 }

/-! ## Concrete fixtures used to instantiate universally quantified theorems -/

/-- The vocabulary of the source's `test_build_input_vector_known_vocab`
test: `budget_10 ↦ 0`, `trust_5 ↦ 3`. -/
def vocabW : Vocab := fun s =>
  if s = "budget_10" then some 0 else if s = "trust_5" then some 3 else none

/-- A concrete environment over a trivial proof type whose decoders always
succeed, whose parsed program I/O carries the given output list, whose
cryptographic verification accepts, and whose hash and signing primitives
are the (injective) identity. -/
def unitEnv (out : List Int) : Env Unit where
  hexDecode := fun _ => .ok []
  deserializeSnark := fun _ => .ok ()
  parseProgramIo := fun _ => .ok ⟨out⟩
  snarkVerify := fun _ _ => .ok ()
  keccak256 := id
  ecdsaSign := id
  now := 77

/-- Like `unitEnv` but cryptographic verification fails with `msg`. -/
def failEnv (out : List Int) (msg : String) : Env Unit :=
  { unitEnv out with snarkVerify := fun _ _ => .error msg }

/-- A concrete verification request fixture. -/
def reqW (mh : String) : VerifyRequest :=
  { proof := "ab", program_io := "x", tx := ⟨[1], [2], [3]⟩, model_hash := mh }

/-! ## Theorems -/

/-- C7: `next_nonce` returns the incremented counter value even when
persisting the new counter fails (`saveOk = false`): the nonce is still
returned, the in-memory counter reflects the increment, and the backing
file is left as it was (the failure is only logged). -/
theorem C7_next_nonce_on_persist_failure (s : NonceState) (f : FileState) :
    (s.next_nonce false f).1 = (s.counter + 1) % U64MOD ∧
    (s.next_nonce false f).2.1.counter = (s.counter + 1) % U64MOD ∧
    (s.next_nonce false f).2.2 = f :=
  ⟨rfl, rfl, rfl⟩

/-- Closed form of `issueRun` from a starting counter below `2^64`: the
i-th issued nonce is `(c + i + 1) % 2^64`, the final counter is
`(c + k) % 2^64`, and after at least one issuance the backing file stores
the final counter. -/
theorem issueRun_eq : ∀ (k : Nat) (f : FileState) (c : Nat), c < U64MOD →
    issueRun ⟨c⟩ f k =
      ((List.range k).map (fun i => (c + i + 1) % U64MOD),
       ⟨(c + k) % U64MOD⟩,
       if k = 0 then f else FileState.stored ((c + k) % U64MOD)) := by
  intro k
  induction k with
  | zero =>
    intro f c hc
    simp only [issueRun, List.range_zero, List.map_nil, if_pos rfl]
    refine Prod.ext rfl (Prod.ext ?_ rfl)
    exact congrArg NonceState.mk (by simp only [U64MOD] at hc ⊢; omega)
  | succ k ih =>
    intro f c hc
    have hc1 : (c + 1) % U64MOD < U64MOD := Nat.mod_lt _ (by simp [U64MOD])
    have hstep : issueRun ⟨c⟩ f (k + 1) =
        ((c + 1) % U64MOD ::
          (issueRun ⟨(c + 1) % U64MOD⟩ (FileState.stored ((c + 1) % U64MOD)) k).1,
         (issueRun ⟨(c + 1) % U64MOD⟩ (FileState.stored ((c + 1) % U64MOD)) k).2) := rfl
    rw [hstep, ih _ _ hc1]
    refine Prod.ext ?_ (Prod.ext ?_ ?_) <;> simp only
    · rw [List.range_succ_eq_map, List.map_cons, List.map_map]
      refine congrArg₂ List.cons (by simp only [U64MOD]; try omega) ?_
      refine List.map_congr_left ?_
      intro a _
      show ((c + 1) % U64MOD + a + 1) % U64MOD = (c + (a + 1) + 1) % U64MOD
      simp only [U64MOD]
      omega
    · exact congrArg NonceState.mk (by simp only [U64MOD]; omega)
    · rw [if_neg (Nat.succ_ne_zero k)]
      by_cases hk : k = 0
      · subst hk
        simp only [if_pos rfl]
        exact congrArg FileState.stored (by simp only [U64MOD]; try omega)
      · rw [if_neg hk]
        exact congrArg FileState.stored (by simp only [U64MOD]; omega)

/-- C2 (amended): starting from an absent, unreadable or corrupt backing
file, `load` yields counter `0` (not a fatal error); for every `N`
**below `2^64`** (the counter is a wrapping `u64`), `N` sequential
`next_nonce` calls return exactly `1, 2, ..., N`, which is strictly
increasing; and after any non-empty prefix of `k ≤ N` issuances, reloading
from the backing file yields a counter equal to `k`, the last issued
nonce. -/
theorem C2_nonce_ledger (f : FileState)
    (hf : f = .absent ∨ f = .unreadable ∨ f = .corrupt)
    (N : Nat) (hN : N < U64MOD) :
    (NonceState.load f).counter = 0 ∧
    (issueRun (NonceState.load f) f N).1 = (List.range N).map (fun i => i + 1) ∧
    List.Pairwise (fun a b => a < b) ((issueRun (NonceState.load f) f N).1) ∧
    (∀ k, 1 ≤ k → k ≤ N →
      (NonceState.load ((issueRun (NonceState.load f) f k).2.2)).counter = k ∧
      (issueRun (NonceState.load f) f k).1[k - 1]? = some k) := by
  have hload : NonceState.load f = ⟨0⟩ := by
    rcases hf with h | h | h <;> subst h <;> rfl
  have h0 : (0 : Nat) < U64MOD := by simp [U64MOD]
  have hlist : ∀ k, k ≤ N →
      (issueRun (NonceState.load f) f k).1 = (List.range k).map (fun i => i + 1) := by
    intro k hk
    rw [hload, issueRun_eq k f 0 h0]
    refine List.map_congr_left ?_
    intro a ha
    have ha' : a < k := List.mem_range.mp ha
    show (0 + a + 1) % U64MOD = a + 1
    simp only [U64MOD] at hN ⊢
    omega
  refine ⟨by rw [hload], hlist N le_rfl, ?_, ?_⟩
  · rw [hlist N le_rfl]
    exact List.Pairwise.map _ (fun a b h => by omega) (List.pairwise_lt_range N)
  · intro k hk1 hkN
    constructor
    · rw [hload, issueRun_eq k f 0 h0]
      simp only
      rw [if_neg (by omega)]
      show ((0 + k) % U64MOD) = k
      simp only [U64MOD] at hN ⊢
      omega
    · rw [hlist k hkN]
      rw [List.getElem?_map, List.getElem?_range (by omega)]
      simp only [Option.map_some']
      exact congrArg some (by omega)

/-- Witness for C2 at concrete inputs: an absent file loads to counter 0,
three issuances return `[1, 2, 3]`, and reloading after two issuances
yields counter `2`. -/
theorem C2_nonce_ledger_witness :
    (NonceState.load .absent).counter = 0 ∧
    (issueRun (NonceState.load .absent) .absent 3).1 = [1, 2, 3] ∧
    (NonceState.load ((issueRun (NonceState.load .absent) .absent 2).2.2)).counter = 2 := by
  have h := C2_nonce_ledger .absent (Or.inl rfl) 3 (by simp [U64MOD])
  refine ⟨h.1, ?_, ?_⟩
  · rw [h.2.1]; decide
  · exact (h.2.2.2 2 (by decide) (by decide)).1

/-- Counterexample to C2 as stated: the claim quantifies over *every* `N`,
but the counter is a `u64` and wraps, so at `N = 2^64` the returned
sequence is not `1, 2, ..., N` — its last element is `0`, not `2^64`. -/
theorem C2_counterexample :
    (issueRun (NonceState.load .absent) .absent U64MOD).1 ≠
      (List.range U64MOD).map (fun i => i + 1) := by
  intro h
  have h0 : (0 : Nat) < U64MOD := by simp [U64MOD]
  have hidx : U64MOD - 1 < U64MOD := by simp [U64MOD]
  have hL : (issueRun (NonceState.load FileState.absent) FileState.absent U64MOD).1[U64MOD - 1]? =
      some ((0 + (U64MOD - 1) + 1) % U64MOD) := by
    rw [show NonceState.load FileState.absent = ⟨0⟩ from rfl,
      issueRun_eq U64MOD FileState.absent 0 h0]
    simp only
    rw [List.getElem?_map, List.getElem?_range hidx]
    rfl
  have hR : ((List.range U64MOD).map (fun i => i + 1))[U64MOD - 1]? =
      some (U64MOD - 1 + 1) := by
    rw [List.getElem?_map, List.getElem?_range hidx]
    rfl
  rw [h, hR] at hL
  have heq : U64MOD - 1 + 1 = (0 + (U64MOD - 1) + 1) % U64MOD := Option.some.inj hL
  simp only [U64MOD] at heq
  omega

/-- C8: feature validation passes iff all seven inclusive upper bounds hold
(budget ≤ 15, trust ≤ 7, amount ≤ 15, category ≤ 3, velocity ≤ 7, day ≤ 7,
time ≤ 3; the lower bound 0 is implicit in the unsigned representation), and
on the first violation in check order it fails with the exact message naming
the offending feature, its value, and the allowed range. -/
theorem C8_validate_features (f : InputFeatures) :
    (validate_features f = .ok () ↔
      (f.budget ≤ 15 ∧ f.trust ≤ 7 ∧ f.amount ≤ 15 ∧ f.category ≤ 3 ∧
       f.velocity ≤ 7 ∧ f.day ≤ 7 ∧ f.time ≤ 3)) ∧
    (15 < f.budget →
      validate_features f = .error (mkRangeError "budget" f.budget 15)) ∧
    (f.budget ≤ 15 → 7 < f.trust →
      validate_features f = .error (mkRangeError "trust" f.trust 7)) ∧
    (f.budget ≤ 15 → f.trust ≤ 7 → 15 < f.amount →
      validate_features f = .error (mkRangeError "amount" f.amount 15)) ∧
    (f.budget ≤ 15 → f.trust ≤ 7 → f.amount ≤ 15 → 3 < f.category →
      validate_features f = .error (mkRangeError "category" f.category 3)) ∧
    (f.budget ≤ 15 → f.trust ≤ 7 → f.amount ≤ 15 → f.category ≤ 3 →
      7 < f.velocity →
      validate_features f = .error (mkRangeError "velocity" f.velocity 7)) ∧
    (f.budget ≤ 15 → f.trust ≤ 7 → f.amount ≤ 15 → f.category ≤ 3 →
      f.velocity ≤ 7 → 7 < f.day →
      validate_features f = .error (mkRangeError "day" f.day 7)) ∧
    (f.budget ≤ 15 → f.trust ≤ 7 → f.amount ≤ 15 → f.category ≤ 3 →
      f.velocity ≤ 7 → f.day ≤ 7 → 3 < f.time →
      validate_features f = .error (mkRangeError "time" f.time 3)) := by
  simp only [validate_features, feature_checks, run_checks]
  refine ⟨?_, ?_, ?_, ?_, ?_, ?_, ?_, ?_⟩
  · split_ifs <;> simp_all <;> omega
  all_goals intros
  all_goals split_ifs <;> first | rfl | omega

/-- Witness for C8: all bounds at their maxima pass; each feature one past
its bound fails with the message naming that feature, value and range. -/
theorem C8_validate_features_witness :
    validate_features ⟨15, 7, 15, 3, 7, 7, 3⟩ = .ok () ∧
    validate_features ⟨16, 0, 0, 0, 0, 0, 0⟩ =
      .error (mkRangeError "budget" 16 15) ∧
    validate_features ⟨0, 8, 0, 0, 0, 0, 0⟩ =
      .error (mkRangeError "trust" 8 7) ∧
    validate_features ⟨0, 0, 16, 0, 0, 0, 0⟩ =
      .error (mkRangeError "amount" 16 15) ∧
    validate_features ⟨0, 0, 0, 4, 0, 0, 0⟩ =
      .error (mkRangeError "category" 4 3) ∧
    validate_features ⟨0, 0, 0, 0, 8, 0, 0⟩ =
      .error (mkRangeError "velocity" 8 7) ∧
    validate_features ⟨0, 0, 0, 0, 0, 8, 0⟩ =
      .error (mkRangeError "day" 8 7) ∧
    validate_features ⟨0, 0, 0, 0, 0, 0, 4⟩ =
      .error (mkRangeError "time" 4 3) := by
  refine ⟨(C8_validate_features ⟨15, 7, 15, 3, 7, 7, 3⟩).1.mpr (by decide),
    (C8_validate_features ⟨16, 0, 0, 0, 0, 0, 0⟩).2.1 (by decide),
    (C8_validate_features ⟨0, 8, 0, 0, 0, 0, 0⟩).2.2.1 (by decide) (by decide),
    (C8_validate_features ⟨0, 0, 16, 0, 0, 0, 0⟩).2.2.2.1 (by decide) (by decide) (by decide),
    (C8_validate_features ⟨0, 0, 0, 4, 0, 0, 0⟩).2.2.2.2.1 (by decide) (by decide) (by decide)
      (by decide),
    (C8_validate_features ⟨0, 0, 0, 0, 8, 0, 0⟩).2.2.2.2.2.1 (by decide) (by decide) (by decide)
      (by decide) (by decide),
    (C8_validate_features ⟨0, 0, 0, 0, 0, 8, 0⟩).2.2.2.2.2.2.1 (by decide) (by decide)
      (by decide) (by decide) (by decide) (by decide),
    (C8_validate_features ⟨0, 0, 0, 0, 0, 0, 4⟩).2.2.2.2.2.2.2 (by decide) (by decide)
      (by decide) (by decide) (by decide) (by decide) (by decide)⟩

/-- Folding `applyFeature` never changes the vector's length. -/
theorem foldl_applyFeature_length (vocab : Vocab) :
    ∀ (ps : List (String × Nat)) (v : List Int),
      (ps.foldl (applyFeature vocab) v).length = v.length := by
  intro ps
  induction ps with
  | nil => intro v; rfl
  | cons q ps ih =>
    intro v
    rw [List.foldl_cons, ih]
    rcases hv : vocab (feature_key q.1 q.2) with _ | j
    · simp [applyFeature, hv]
    · by_cases hj : j < 64 <;> simp [applyFeature, hv, hj, List.length_set]

/-- Characterization of folding `applyFeature` over a 64-element vector:
position `i < 64` holds `128` exactly when some processed feature's composed
key maps to `i`, and is otherwise untouched. -/
theorem foldl_applyFeature_getElem? (vocab : Vocab) :
    ∀ (ps : List (String × Nat)) (v : List Int) (i : Nat), v.length = 64 → i < 64 →
      (ps.foldl (applyFeature vocab) v)[i]? =
        if ∃ p ∈ ps, vocab (feature_key p.1 p.2) = some i then some 128 else v[i]? := by
  intro ps
  induction ps with
  | nil =>
    intro v i _ _
    simp
  | cons q ps ih =>
    intro v i hv hi
    rw [List.foldl_cons]
    have hlen : (applyFeature vocab v q).length = 64 := by
      rcases hq : vocab (feature_key q.1 q.2) with _ | j
      · simpa [applyFeature, hq] using hv
      · by_cases hj : j < 64 <;> simp [applyFeature, hq, hj, List.length_set, hv]
    rw [ih (applyFeature vocab v q) i hlen hi]
    by_cases hps : ∃ p ∈ ps, vocab (feature_key p.1 p.2) = some i
    · rw [if_pos hps, if_pos ?_]
      obtain ⟨p, hp, hmap⟩ := hps
      exact ⟨p, List.mem_cons_of_mem q hp, hmap⟩
    · rw [if_neg hps]
      rcases hq : vocab (feature_key q.1 q.2) with _ | j
      · rw [show applyFeature vocab v q = v from by simp [applyFeature, hq]]
        rw [if_neg ?_]
        rintro ⟨p, hp, hmap⟩
        rcases List.mem_cons.mp hp with rfl | hp'
        · rw [hq] at hmap; exact Option.noConfusion hmap
        · exact hps ⟨p, hp', hmap⟩
      · by_cases hj : j < 64
        · have happ : applyFeature vocab v q = v.set j 128 := by
            simp [applyFeature, hq, hj]
          rw [happ]
          by_cases hji : j = i
          · subst hji
            rw [List.getElem?_set_eq (by rw [hv]; exact hj)]
            rw [if_pos ⟨q, List.mem_cons_self q ps, hq⟩]
          · rw [List.getElem?_set_ne hji]
            rw [if_neg ?_]
            rintro ⟨p, hp, hmap⟩
            rcases List.mem_cons.mp hp with rfl | hp'
            · rw [hq] at hmap
              exact hji (Option.some.inj hmap)
            · exact hps ⟨p, hp', hmap⟩
        · have happ : applyFeature vocab v q = v := by simp [applyFeature, hq, hj]
          rw [happ]
          rw [if_neg ?_]
          rintro ⟨p, hp, hmap⟩
          rcases List.mem_cons.mp hp with rfl | hp'
          · rw [hq] at hmap
            exact hj (Option.some.inj hmap ▸ hi)
          · exact hps ⟨p, hp', hmap⟩

/-- C9: for every seven-feature input and vocabulary, the encoder yields a
length-64 vector; a position `i < 64` holds `128` (`1 << 7`) exactly when
some feature's composed key `"{name}_{value}"` maps to `i` in the
vocabulary, and holds `0` otherwise; missing keys and out-of-range indices
contribute nothing and raise no error, and with an empty vocabulary the
result is all zeros. -/
theorem C9_build_input_vector (f : InputFeatures) (vocab : Vocab) :
    (build_input_vector f vocab).length = 64 ∧
    (∀ i, i < 64 →
      ((∃ p ∈ feature_values f, vocab (feature_key p.1 p.2) = some i) →
        (build_input_vector f vocab)[i]? = some 128) ∧
      ((¬∃ p ∈ feature_values f, vocab (feature_key p.1 p.2) = some i) →
        (build_input_vector f vocab)[i]? = some 0)) ∧
    ((∀ s, vocab s = none) → build_input_vector f vocab = List.replicate 64 (0 : Int)) := by
  have hrep : (List.replicate 64 (0 : Int)).length = 64 := List.length_replicate 64 0
  refine ⟨?_, ?_, ?_⟩
  · rw [build_input_vector, foldl_applyFeature_length, List.length_replicate]
  · intro i hi
    have h := foldl_applyFeature_getElem? vocab (feature_values f)
      (List.replicate 64 (0 : Int)) i hrep hi
    constructor
    · intro hex2
      rw [build_input_vector, h, if_pos hex2]
    · intro hnex
      rw [build_input_vector, h, if_neg hnex, List.getElem?_replicate, if_pos hi]
  · intro hnone
    simp [build_input_vector, feature_values, applyFeature, hnone]

/-- Witness for C9: with vocabulary `{budget_10 ↦ 0, trust_5 ↦ 3}` and
features `{budget := 10, trust := 5}`, index 0 is activated to 128 and
index 1 stays 0. -/
theorem C9_build_input_vector_witness :
    (build_input_vector ⟨10, 5, 0, 0, 0, 0, 0⟩ vocabW)[0]? = some 128 ∧
    (build_input_vector ⟨10, 5, 0, 0, 0, 0, 0⟩ vocabW)[1]? = some 0 := by
  have h := C9_build_input_vector ⟨10, 5, 0, 0, 0, 0, 0⟩ vocabW
  exact ⟨(h.2.1 0 (by decide)).1 (by decide), (h.2.1 1 (by decide)).2 (by decide)⟩

/-- getElem? of `enumFrom`: the i-th entry pairs index `n + i` with the i-th
list element. -/
theorem enumFrom_getElem? : ∀ (l : List Int) (n i : Nat),
    (l.enumFrom n)[i]? = l[i]?.map (fun v => (n + i, v)) := by
  intro l
  induction l with
  | nil => intro n i; simp [List.enumFrom]
  | cons x xs ih =>
    intro n i
    cases i with
    | zero => simp [List.enumFrom]
    | succ i =>
      rw [List.enumFrom_cons, List.getElem?_cons_succ, List.getElem?_cons_succ,
        ih (n + 1) i]
      cases hx : xs[i]? with
      | none => simp
      | some v =>
        simp only [Option.map_some']
        refine congrArg some (Prod.ext ?_ rfl)
        show n + 1 + i = n + (i + 1)
        omega

/-- Membership in `enumFrom` characterized by positions. -/
theorem mem_enumFrom_iff {p : Nat × Int} {l : List Int} {n : Nat} :
    p ∈ l.enumFrom n ↔ ∃ i, l[i]? = some p.2 ∧ p.1 = n + i := by
  rw [List.mem_iff_getElem?]
  constructor
  · rintro ⟨i, hi⟩
    rw [enumFrom_getElem?] at hi
    cases hx : l[i]? with
    | none => rw [hx] at hi; exact absurd hi (by simp)
    | some v =>
      rw [hx] at hi
      simp only [Option.map_some', Option.some.injEq] at hi
      subst hi
      exact ⟨i, hx, rfl⟩
  · rintro ⟨i, hv, hp1⟩
    refine ⟨i, ?_⟩
    rw [enumFrom_getElem?, hv]
    simp only [Option.map_some']
    exact congrArg some (Prod.ext hp1.symm rfl)

/-- The indices of `enumFrom` are strictly increasing. -/
theorem enumFrom_pairwise : ∀ (l : List Int) (n : Nat),
    List.Pairwise (fun p q : Nat × Int => p.1 < q.1) (l.enumFrom n) := by
  intro l
  induction l with
  | nil => intro n; exact List.Pairwise.nil
  | cons x xs ih =>
    intro n
    show List.Pairwise _ ((n, x) :: xs.enumFrom (n + 1))
    refine List.pairwise_cons.mpr ⟨?_, ih (n + 1)⟩
    intro q hq
    obtain ⟨i, _, hq1⟩ := mem_enumFrom_iff.mp hq
    show n < q.1
    omega

/-- The result of the `max_by` fold is the accumulator or one of the folded
elements. -/
theorem amFold_mem : ∀ (ps : List (Nat × Int)) (a : Nat × Int),
    amFold a ps = a ∨ amFold a ps ∈ ps := by
  intro ps
  induction ps with
  | nil => intro a; exact Or.inl rfl
  | cons b l ih =>
    intro a
    rcases ih (amStep a b) with h1 | h1
    · have h2 : amFold a (b :: l) = amStep a b := h1
      rw [h2]
      unfold amStep
      split
      · exact Or.inl rfl
      · exact Or.inr (List.mem_cons_self b l)
    · exact Or.inr (List.mem_cons_of_mem b h1)

/-- The `max_by` fold result's value dominates the accumulator and every
folded element. -/
theorem amFold_le : ∀ (ps : List (Nat × Int)) (a : Nat × Int),
    a.2 ≤ (amFold a ps).2 ∧ ∀ p ∈ ps, p.2 ≤ (amFold a ps).2 := by
  intro ps
  induction ps with
  | nil =>
    intro a
    exact ⟨le_refl _, fun p hp => absurd hp (List.not_mem_nil p)⟩
  | cons b l ih =>
    intro a
    have hstep_a : a.2 ≤ (amStep a b).2 := by
      unfold amStep; split
      · exact le_refl _
      · next hb => exact le_of_not_lt hb
    have hstep_b : b.2 ≤ (amStep a b).2 := by
      unfold amStep; split
      · next hb => exact le_of_lt hb
      · exact le_refl _
    obtain ⟨h1, h2⟩ := ih (amStep a b)
    refine ⟨le_trans hstep_a h1, ?_⟩
    intro p hp
    rcases List.mem_cons.mp hp with rfl | hp'
    · exact le_trans hstep_b h1
    · exact h2 p hp'

/-- Last-occurrence property of the `max_by` fold: when the indices are
strictly increasing, every folded element positioned after the result is
strictly smaller — Rust's `max_by` keeps the *last* maximal element. -/
theorem amFold_last : ∀ (ps : List (Nat × Int)) (a : Nat × Int),
    (∀ p ∈ ps, a.1 < p.1) → List.Pairwise (fun p q : Nat × Int => p.1 < q.1) ps →
    ∀ p ∈ ps, (amFold a ps).1 < p.1 → p.2 < (amFold a ps).2 := by
  intro ps
  induction ps with
  | nil => intro a _ _ p hp; exact absurd hp (List.not_mem_nil p)
  | cons b l ih =>
    intro a hlt hpw p hp hidx
    obtain ⟨hpw1, hpw2⟩ := List.pairwise_cons.mp hpw
    have hlt' : ∀ q ∈ l, (amStep a b).1 < q.1 := by
      intro q hq
      unfold amStep; split
      · exact hlt q (List.mem_cons_of_mem b hq)
      · exact hpw1 q hq
    rcases List.mem_cons.mp hp with rfl | hp'
    · have hdef : amFold a (p :: l) = amFold (amStep a p) l := rfl
      rw [hdef] at hidx
      by_cases hb : p.2 < a.2
      · have hstep : amStep a p = a := if_pos hb
        rcases amFold_mem l (amStep a p) with hm | hm
        · have heq : amFold a (p :: l) = a := by
            show amFold (amStep a p) l = a
            rw [hm, hstep]
          rw [heq]
          exact hb
        · have hbp : p.1 < (amFold (amStep a p) l).1 := hpw1 _ hm
          omega
      · have hstep : amStep a p = p := if_neg hb
        rcases amFold_mem l (amStep a p) with hm | hm
        · have heq : (amFold (amStep a p) l).1 = p.1 := by rw [hm, hstep]
          omega
        · have hbp : p.1 < (amFold (amStep a p) l).1 := hpw1 _ hm
          omega
    · exact ih (amStep a b) hlt' hpw2 p hp' hidx

/-- Full specification of the shared arg-max selection on a non-empty
output `o :: os`: the selected index is valid, prover and cosigner select
the same pair, its value is a maximum of the list, and every element
*after* the selected index is strictly smaller (last-occurrence
tie-break). -/
theorem argmax_spec (o : Int) (os : List Int) :
    ∃ v, (o :: os)[argmaxNE o os]? = some v ∧
      prover_argmax (o :: os) = some (argmaxNE o os, v) ∧
      (∀ (j : Nat) (w : Int), (o :: os)[j]? = some w → w ≤ v) ∧
      (∀ (j : Nat) (w : Int), argmaxNE o os < j → (o :: os)[j]? = some w → w < v) := by
  have hlt : ∀ p ∈ os.enumFrom 1, (((0 : Nat), o)).1 < p.1 := by
    intro p hp
    obtain ⟨i, _, hp1⟩ := mem_enumFrom_iff.mp hp
    show 0 < p.1
    omega
  have hpw := enumFrom_pairwise os 1
  have hcorr : (o :: os)[(amFold (0, o) (os.enumFrom 1)).1]? =
      some (amFold (0, o) (os.enumFrom 1)).2 := by
    rcases amFold_mem (os.enumFrom 1) (0, o) with hm | hm
    · rw [hm]
      exact List.getElem?_cons_zero
    · obtain ⟨i, hv, h1⟩ := mem_enumFrom_iff.mp hm
      rw [h1, Nat.add_comm 1 i, List.getElem?_cons_succ]
      exact hv
  refine ⟨(amFold (0, o) (os.enumFrom 1)).2, hcorr, rfl, ?_, ?_⟩
  · intro j w hj
    cases j with
    | zero =>
      rw [List.getElem?_cons_zero] at hj
      have hw : w = o := (Option.some.inj hj).symm
      subst hw
      exact (amFold_le (os.enumFrom 1) (0, w)).1
    | succ j =>
      rw [List.getElem?_cons_succ] at hj
      have hmem : ((1 + j : Nat), w) ∈ os.enumFrom 1 :=
        mem_enumFrom_iff.mpr ⟨j, hj, rfl⟩
      exact (amFold_le (os.enumFrom 1) (0, o)).2 _ hmem
  · intro j w hlt2 hj
    cases j with
    | zero => exact absurd hlt2 (Nat.not_lt_zero _)
    | succ j =>
      rw [List.getElem?_cons_succ] at hj
      have hmem : ((1 + j : Nat), w) ∈ os.enumFrom 1 :=
        mem_enumFrom_iff.mpr ⟨j, hj, rfl⟩
      exact amFold_last (os.enumFrom 1) (0, o) hlt hpw _ hmem (by
        show argmaxNE o os < 1 + j
        omega)

/-- C5 (amended): on a non-empty output, both the prover's local pre-check
and the cosigner's output policy check select the index of a maximum value,
with ties between equal maxima broken by the **last** occurrence in
iteration order (Rust's `Iterator::max_by` keeps the later element on
`Equal`), not the first. -/
theorem C5_argmax_last_occurrence (o : Int) (os : List Int) :
    ∃ v, (o :: os)[argmaxNE o os]? = some v ∧
      prover_argmax (o :: os) = some (argmaxNE o os, v) ∧
      (∀ (j : Nat) (w : Int), (o :: os)[j]? = some w → w ≤ v) ∧
      (∀ (j : Nat) (w : Int), argmaxNE o os < j → (o :: os)[j]? = some w → w < v) :=
  argmax_spec o os

/-- Counterexample to C5 as stated: on the tied output `[5, 5]` both
selections return index `1` (the last maximal occurrence), while the
spec's first-occurrence tie-break would return index `0`. -/
theorem C5_counterexample :
    argmaxNE 5 [5] = 1 ∧ prover_argmax [(5 : Int), 5] = some (1, 5) ∧
    firstOccArgmax [(5 : Int), 5] = some (0, 5) ∧ (1 : Nat) ≠ 0 := by
  refine ⟨rfl, rfl, rfl, by decide⟩

/-- Evaluation of `verify_proof` on a model-hash mismatch: immediate
bad-request rejection after only the model check. -/
theorem vp_hash_mismatch {Snark : Type} (env : Env Snark) (data : AppState)
    (req : VerifyRequest) (ns : NonceState) (saveOk : Bool) (file : FileState)
    (h : req.model_hash ≠ data.model_hash) :
    verify_proof env data req ns saveOk file =
      { status := .badRequest,
        response := ⟨false, none, none, none,
          some ("Model hash mismatch: prover=" ++ req.model_hash ++
            ", cosigner=" ++ data.model_hash)⟩,
        ns := ns, file := file, trace := [Step.modelCheck] } := by
  simp only [verify_proof, if_pos h]

/-- Evaluation of `verify_proof` when everything decodes but the public
output sequence is empty: forbidden rejection before verification, nonce
issuance and signing. -/
theorem vp_empty_output {Snark : Type} (env : Env Snark) (data : AppState)
    (req : VerifyRequest) (ns : NonceState) (saveOk : Bool) (file : FileState)
    (bs : List Nat) (sk : Snark) (pio : ProgramIo)
    (hhash : req.model_hash = data.model_hash)
    (hhex : env.hexDecode req.proof = .ok bs)
    (hsk : env.deserializeSnark bs = .ok sk)
    (hio : env.parseProgramIo req.program_io = .ok pio)
    (hout : pio.output = []) :
    verify_proof env data req ns saveOk file =
      { status := .forbidden,
        response := ⟨false, none, none, none, some "Empty model output"⟩,
        ns := ns, file := file,
        trace := [Step.modelCheck, Step.proofHexDecode, Step.snarkDeserialize,
          Step.ioDecode, Step.outputCheck] } := by
  simp [verify_proof, hhash, hhex, hsk, hio, hout]

/-- Evaluation of `verify_proof` when everything decodes but the arg-max of
the output is a non-zero index: forbidden rejection before verification,
nonce issuance and signing. -/
theorem vp_denied {Snark : Type} (env : Env Snark) (data : AppState)
    (req : VerifyRequest) (ns : NonceState) (saveOk : Bool) (file : FileState)
    (bs : List Nat) (sk : Snark) (pio : ProgramIo) (o : Int) (os : List Int)
    (hhash : req.model_hash = data.model_hash)
    (hhex : env.hexDecode req.proof = .ok bs)
    (hsk : env.deserializeSnark bs = .ok sk)
    (hio : env.parseProgramIo req.program_io = .ok pio)
    (hout : pio.output = o :: os)
    (hne : argmaxNE o os ≠ 0) :
    verify_proof env data req ns saveOk file =
      { status := .forbidden,
        response := ⟨false, none, none, none,
          some "Model output is DENIED (class != 0)"⟩,
        ns := ns, file := file,
        trace := [Step.modelCheck, Step.proofHexDecode, Step.snarkDeserialize,
          Step.ioDecode, Step.outputCheck] } := by
  simp [verify_proof, hhash, hhex, hsk, hio, hout, hne]

/-- Evaluation of `verify_proof` when the output policy passes but
cryptographic verification fails: forbidden rejection before nonce issuance
and signing. -/
theorem vp_verify_failed {Snark : Type} (env : Env Snark) (data : AppState)
    (req : VerifyRequest) (ns : NonceState) (saveOk : Bool) (file : FileState)
    (bs : List Nat) (sk : Snark) (pio : ProgramIo) (o : Int) (os : List Int)
    (e : String)
    (hhash : req.model_hash = data.model_hash)
    (hhex : env.hexDecode req.proof = .ok bs)
    (hsk : env.deserializeSnark bs = .ok sk)
    (hio : env.parseProgramIo req.program_io = .ok pio)
    (hout : pio.output = o :: os)
    (h0 : argmaxNE o os = 0)
    (hver : env.snarkVerify sk pio = .error e) :
    verify_proof env data req ns saveOk file =
      { status := .forbidden,
        response := ⟨false, none, none, none,
          some ("Proof verification failed: " ++ e)⟩,
        ns := ns, file := file,
        trace := [Step.modelCheck, Step.proofHexDecode, Step.snarkDeserialize,
          Step.ioDecode, Step.outputCheck, Step.snarkVerify] } := by
  simp [verify_proof, hhash, hhex, hsk, hio, hout, h0, hver]

/-- Evaluation of `verify_proof` on the fully successful path: approval with
a freshly issued nonce, the environment's timestamp, and the hex-encoded
signature over the keccak digest of the signing preimage. -/
theorem vp_approved {Snark : Type} (env : Env Snark) (data : AppState)
    (req : VerifyRequest) (ns : NonceState) (saveOk : Bool) (file : FileState)
    (bs : List Nat) (sk : Snark) (pio : ProgramIo) (o : Int) (os : List Int)
    (hhash : req.model_hash = data.model_hash)
    (hhex : env.hexDecode req.proof = .ok bs)
    (hsk : env.deserializeSnark bs = .ok sk)
    (hio : env.parseProgramIo req.program_io = .ok pio)
    (hout : pio.output = o :: os)
    (h0 : argmaxNE o os = 0)
    (hver : env.snarkVerify sk pio = .ok ()) :
    verify_proof env data req ns saveOk file =
      { status := .ok,
        response := ⟨true,
          some (hexEncode
            ((signApproval env req.tx ((ns.counter + 1) % U64MOD) env.now).2)),
          some ((ns.counter + 1) % U64MOD), some env.now, none⟩,
        ns := ⟨(ns.counter + 1) % U64MOD⟩,
        file := if saveOk then .stored ((ns.counter + 1) % U64MOD) else file,
        trace := [Step.modelCheck, Step.proofHexDecode, Step.snarkDeserialize,
          Step.ioDecode, Step.outputCheck, Step.snarkVerify, Step.nonceIssue,
          Step.signing] } := by
  simp [verify_proof, hhash, hhex, hsk, hio, hout, h0, hver,
    NonceState.next_nonce, NonceState.save]

/-- C10: the nonce ledger is untouched on every rejection path of
`verify_proof` — the in-memory counter and the backing file are returned
unchanged — and the counter is incremented (and returned as the response's
nonce) exactly on the approved path. -/
theorem C10_nonce_only_on_approval {Snark : Type} (env : Env Snark)
    (data : AppState) (req : VerifyRequest) (ns : NonceState) (saveOk : Bool)
    (file : FileState) :
    ((verify_proof env data req ns saveOk file).response.approved = false →
      (verify_proof env data req ns saveOk file).ns = ns ∧
      (verify_proof env data req ns saveOk file).file = file) ∧
    ((verify_proof env data req ns saveOk file).response.approved = true →
      (verify_proof env data req ns saveOk file).ns.counter =
        (ns.counter + 1) % U64MOD ∧
      (verify_proof env data req ns saveOk file).response.nonce =
        some ((ns.counter + 1) % U64MOD)) := by
  unfold verify_proof
  simp only [NonceState.next_nonce]
  repeat' split
  all_goals refine ⟨fun h => ?_, fun h => ?_⟩
  all_goals first
    | exact ⟨rfl, rfl⟩
    | exact nomatch h

/-- C1: whenever the proof and program I/O decode successfully (and the
model hash matches), an empty public output is rejected with the
empty-output reason, and a public output whose index 0 is not a maximum
(some later value strictly exceeds it, so the arg-max index is non-zero
under any tie-break convention) is rejected with the denial reason; in both
cases `approved = false`, there is no signature, nonce or timestamp, and the
nonce-issuance and signing steps are never reached. -/
theorem C1_output_policy_rejects {Snark : Type} (env : Env Snark)
    (data : AppState) (req : VerifyRequest) (ns : NonceState) (saveOk : Bool)
    (file : FileState) (bs : List Nat) (sk : Snark) (pio : ProgramIo)
    (hhash : req.model_hash = data.model_hash)
    (hhex : env.hexDecode req.proof = .ok bs)
    (hsk : env.deserializeSnark bs = .ok sk)
    (hio : env.parseProgramIo req.program_io = .ok pio) :
    (pio.output = [] →
      (verify_proof env data req ns saveOk file).response =
        ⟨false, none, none, none, some "Empty model output"⟩ ∧
      Step.signing ∉ (verify_proof env data req ns saveOk file).trace ∧
      Step.nonceIssue ∉ (verify_proof env data req ns saveOk file).trace) ∧
    (∀ (o : Int) (os : List Int) (j : Nat) (w : Int),
      pio.output = o :: os → (o :: os)[j]? = some w → o < w →
      (verify_proof env data req ns saveOk file).response =
        ⟨false, none, none, none, some "Model output is DENIED (class != 0)"⟩ ∧
      Step.signing ∉ (verify_proof env data req ns saveOk file).trace ∧
      Step.nonceIssue ∉ (verify_proof env data req ns saveOk file).trace) := by
  constructor
  · intro hout
    rw [vp_empty_output env data req ns saveOk file bs sk pio hhash hhex hsk hio hout]
    exact ⟨rfl, by simp, by simp⟩
  · intro o os j w hout hj how
    have hne : argmaxNE o os ≠ 0 := by
      intro h0
      obtain ⟨v, hv, _, hmax, _⟩ := argmax_spec o os
      rw [h0, List.getElem?_cons_zero] at hv
      have hvo : o = v := Option.some.inj hv
      have hwv := hmax j w hj
      omega
    rw [vp_denied env data req ns saveOk file bs sk pio o os hhash hhex hsk hio
      hout hne]
    exact ⟨rfl, by simp, by simp⟩

/-- Witness for C1: with always-succeeding decoders, an empty output and the
denying output `[1, 2]` are both rejected without reaching signing. -/
theorem C1_output_policy_rejects_witness :
    ((verify_proof (unitEnv []) ⟨"m"⟩ (reqW "m") ⟨0⟩ true .absent).response =
      ⟨false, none, none, none, some "Empty model output"⟩ ∧
      Step.signing ∉ (verify_proof (unitEnv []) ⟨"m"⟩ (reqW "m") ⟨0⟩ true .absent).trace) ∧
    ((verify_proof (unitEnv [1, 2]) ⟨"m"⟩ (reqW "m") ⟨0⟩ true .absent).response =
      ⟨false, none, none, none, some "Model output is DENIED (class != 0)"⟩ ∧
      Step.signing ∉ (verify_proof (unitEnv [1, 2]) ⟨"m"⟩ (reqW "m") ⟨0⟩ true .absent).trace) := by
  constructor
  · have h := (C1_output_policy_rejects (unitEnv []) ⟨"m"⟩ (reqW "m") ⟨0⟩ true
      .absent [] () ⟨[]⟩ rfl rfl rfl rfl).1 rfl
    exact ⟨h.1, h.2.1⟩
  · have h := (C1_output_policy_rejects (unitEnv [1, 2]) ⟨"m"⟩ (reqW "m") ⟨0⟩ true
      .absent [] () ⟨[1, 2]⟩ rfl rfl rfl rfl).2 1 [2] 1 2 rfl rfl (by decide)
    exact ⟨h.1, h.2.1⟩

/-- C3: a request whose claimed model hash differs from the authoritative
hash is rejected immediately with the mismatch reason; the trace is exactly
the model check, so no proof-hex decoding, proof deserialization,
program-I/O decoding, cryptographic verification, nonce issuance or signing
is ever attempted. -/
theorem C3_hash_mismatch_rejects_before_decoding {Snark : Type}
    (env : Env Snark) (data : AppState) (req : VerifyRequest) (ns : NonceState)
    (saveOk : Bool) (file : FileState)
    (h : req.model_hash ≠ data.model_hash) :
    (verify_proof env data req ns saveOk file).status = .badRequest ∧
    (verify_proof env data req ns saveOk file).response =
      ⟨false, none, none, none,
        some ("Model hash mismatch: prover=" ++ req.model_hash ++
          ", cosigner=" ++ data.model_hash)⟩ ∧
    (verify_proof env data req ns saveOk file).trace = [Step.modelCheck] ∧
    Step.proofHexDecode ∉ (verify_proof env data req ns saveOk file).trace ∧
    Step.snarkDeserialize ∉ (verify_proof env data req ns saveOk file).trace ∧
    Step.ioDecode ∉ (verify_proof env data req ns saveOk file).trace ∧
    Step.snarkVerify ∉ (verify_proof env data req ns saveOk file).trace ∧
    Step.nonceIssue ∉ (verify_proof env data req ns saveOk file).trace ∧
    Step.signing ∉ (verify_proof env data req ns saveOk file).trace := by
  rw [vp_hash_mismatch env data req ns saveOk file h]
  exact ⟨rfl, rfl, rfl, by simp, by simp, by simp, by simp, by simp, by simp⟩

/-- Witness for C3 on a concrete mismatching request. -/
theorem C3_hash_mismatch_witness :
    (verify_proof (unitEnv []) ⟨"m"⟩ (reqW "x") ⟨0⟩ true .absent).status =
      HttpStatus.badRequest ∧
    (verify_proof (unitEnv []) ⟨"m"⟩ (reqW "x") ⟨0⟩ true .absent).trace =
      [Step.modelCheck] := by
  have h := C3_hash_mismatch_rejects_before_decoding (unitEnv []) ⟨"m"⟩
    (reqW "x") ⟨0⟩ true .absent (by decide)
  exact ⟨h.1, h.2.2.1⟩

/-- C6 (amended): empty output, denying output and proof-verification
failure are reported with the forbidden classification and a reason naming
the failed gate; a model-hash mismatch, however, is reported with the
bad-request classification (not forbidden), together with its
human-readable mismatch reason. -/
theorem C6_rejection_classifications {Snark : Type} (env : Env Snark)
    (data : AppState) (req : VerifyRequest) (ns : NonceState) (saveOk : Bool)
    (file : FileState) :
    (req.model_hash ≠ data.model_hash →
      (verify_proof env data req ns saveOk file).status = .badRequest ∧
      (verify_proof env data req ns saveOk file).response.reason =
        some ("Model hash mismatch: prover=" ++ req.model_hash ++
          ", cosigner=" ++ data.model_hash)) ∧
    (∀ (bs : List Nat) (sk : Snark) (pio : ProgramIo),
      req.model_hash = data.model_hash → env.hexDecode req.proof = .ok bs →
      env.deserializeSnark bs = .ok sk →
      env.parseProgramIo req.program_io = .ok pio → pio.output = [] →
      (verify_proof env data req ns saveOk file).status = .forbidden ∧
      (verify_proof env data req ns saveOk file).response.reason =
        some "Empty model output") ∧
    (∀ (bs : List Nat) (sk : Snark) (pio : ProgramIo) (o : Int) (os : List Int),
      req.model_hash = data.model_hash → env.hexDecode req.proof = .ok bs →
      env.deserializeSnark bs = .ok sk →
      env.parseProgramIo req.program_io = .ok pio → pio.output = o :: os →
      argmaxNE o os ≠ 0 →
      (verify_proof env data req ns saveOk file).status = .forbidden ∧
      (verify_proof env data req ns saveOk file).response.reason =
        some "Model output is DENIED (class != 0)") ∧
    (∀ (bs : List Nat) (sk : Snark) (pio : ProgramIo) (o : Int) (os : List Int)
      (e : String),
      req.model_hash = data.model_hash → env.hexDecode req.proof = .ok bs →
      env.deserializeSnark bs = .ok sk →
      env.parseProgramIo req.program_io = .ok pio → pio.output = o :: os →
      argmaxNE o os = 0 → env.snarkVerify sk pio = .error e →
      (verify_proof env data req ns saveOk file).status = .forbidden ∧
      (verify_proof env data req ns saveOk file).response.reason =
        some ("Proof verification failed: " ++ e)) := by
  refine ⟨?_, ?_, ?_, ?_⟩
  · intro h
    rw [vp_hash_mismatch env data req ns saveOk file h]
    exact ⟨rfl, rfl⟩
  · intro bs sk pio hhash hhex hsk hio hout
    rw [vp_empty_output env data req ns saveOk file bs sk pio hhash hhex hsk hio
      hout]
    exact ⟨rfl, rfl⟩
  · intro bs sk pio o os hhash hhex hsk hio hout hne
    rw [vp_denied env data req ns saveOk file bs sk pio o os hhash hhex hsk hio
      hout hne]
    exact ⟨rfl, rfl⟩
  · intro bs sk pio o os e hhash hhex hsk hio hout h0 hver
    rw [vp_verify_failed env data req ns saveOk file bs sk pio o os e hhash hhex
      hsk hio hout h0 hver]
    exact ⟨rfl, rfl⟩

/-- Counterexample to C6 as stated: a model-hash mismatch is *not* reported
with the forbidden classification — on a concrete mismatching request the
status is bad-request, which differs from forbidden. -/
theorem C6_counterexample :
    (verify_proof (unitEnv []) ⟨"m"⟩ (reqW "x") ⟨0⟩ true FileState.absent).status =
      HttpStatus.badRequest ∧
    HttpStatus.badRequest ≠ HttpStatus.forbidden := by
  exact ⟨rfl, by decide⟩

/-- Witness for C6 on concrete requests exercising all four rejection
gates. -/
theorem C6_rejection_classifications_witness :
    ((verify_proof (unitEnv []) ⟨"m"⟩ (reqW "x") ⟨0⟩ true .absent).status =
      HttpStatus.badRequest ∧
     (verify_proof (unitEnv []) ⟨"m"⟩ (reqW "x") ⟨0⟩ true .absent).response.reason =
      some "Model hash mismatch: prover=x, cosigner=m") ∧
    ((verify_proof (unitEnv []) ⟨"m"⟩ (reqW "m") ⟨0⟩ true .absent).status =
      HttpStatus.forbidden ∧
     (verify_proof (unitEnv []) ⟨"m"⟩ (reqW "m") ⟨0⟩ true .absent).response.reason =
      some "Empty model output") ∧
    ((verify_proof (unitEnv [1, 2]) ⟨"m"⟩ (reqW "m") ⟨0⟩ true .absent).status =
      HttpStatus.forbidden ∧
     (verify_proof (unitEnv [1, 2]) ⟨"m"⟩ (reqW "m") ⟨0⟩ true .absent).response.reason =
      some "Model output is DENIED (class != 0)") ∧
    ((verify_proof (failEnv [2, 1] "boom") ⟨"m"⟩ (reqW "m") ⟨0⟩ true .absent).status =
      HttpStatus.forbidden ∧
     (verify_proof (failEnv [2, 1] "boom") ⟨"m"⟩ (reqW "m") ⟨0⟩ true .absent).response.reason =
      some "Proof verification failed: boom") := by
  refine ⟨?_, ?_, ?_, ?_⟩
  · have h := (C6_rejection_classifications (unitEnv []) ⟨"m"⟩ (reqW "x") ⟨0⟩
      true .absent).1 (by decide)
    exact ⟨h.1, h.2⟩
  · exact (C6_rejection_classifications (unitEnv []) ⟨"m"⟩ (reqW "m") ⟨0⟩
      true .absent).2.1 [] () ⟨[]⟩ rfl rfl rfl rfl rfl
  · exact (C6_rejection_classifications (unitEnv [1, 2]) ⟨"m"⟩ (reqW "m") ⟨0⟩
      true .absent).2.2.1 [] () ⟨[1, 2]⟩ 1 [2] rfl rfl rfl rfl rfl (by decide)
  · exact (C6_rejection_classifications (failEnv [2, 1] "boom") ⟨"m"⟩ (reqW "m")
      ⟨0⟩ true .absent).2.2.2 [] () ⟨[2, 1]⟩ 2 [1] "boom" rfl rfl rfl rfl rfl
      (by decide) rfl

/-- `u64be` is injective on values below `2^64`. -/
theorem u64be_inj {n m : Nat} (hn : n < U64MOD) (hm : m < U64MOD)
    (h : u64be n = u64be m) : n = m := by
  simp only [u64be, List.cons.injEq, and_true] at h
  simp only [U64MOD] at hn hm
  omega

/-- The signing preimage determines every field: with field lengths equal
and nonce/timestamp in `u64` range, equal preimages force equal fields. -/
theorem signingPreimage_inj (tx tx2 : TxDetails) (n t n2 t2 : Nat)
    (h1 : tx.toAddr.length = tx2.toAddr.length)
    (h2 : tx.amount.length = tx2.amount.length)
    (h3 : tx.token.length = tx2.token.length)
    (hn : n < U64MOD) (hn2 : n2 < U64MOD) (ht : t < U64MOD) (ht2 : t2 < U64MOD)
    (h : signingPreimage tx n t = signingPreimage tx2 n2 t2) :
    tx.toAddr = tx2.toAddr ∧ tx.amount = tx2.amount ∧ tx.token = tx2.token ∧
      n = n2 ∧ t = t2 := by
  unfold signingPreimage at h
  obtain ⟨h, e5⟩ := List.append_inj' h rfl
  obtain ⟨h, e4⟩ := List.append_inj' h rfl
  obtain ⟨h, e3⟩ := List.append_inj' h h3
  obtain ⟨e1, e2⟩ := List.append_inj' h h2
  exact ⟨e1, e2, e3, u64be_inj hn hn2 e4, u64be_inj ht ht2 e5⟩

/-- C4: the signing preimage is exactly
`to ++ amount ++ token ++ nonce.to_be_bytes() ++ timestamp.to_be_bytes()`
(matching the spec's stated concatenation), the signed hash is the keccak256
digest of this preimage and the signature is over that digest; the
construction is deterministic in `{to, amount, token, nonce, timestamp}`;
and any change to the fields that keeps their lengths (in particular any
single-byte change) changes the preimage — hence the digest and the
signature whenever the modelled keccak256 and signing primitives are
injective (the standard collision-freeness idealization of the external
crypto). -/
theorem C4_signing_preimage {Snark : Type} (env : Env Snark)
    (tx tx2 : TxDetails) (nonce timestamp nonce2 timestamp2 : Nat) :
    signingPreimage tx nonce timestamp = specPreimage tx nonce timestamp ∧
    signingPreimage tx nonce timestamp =
      tx.toAddr ++ tx.amount ++ tx.token ++ u64be nonce ++ u64be timestamp ∧
    (signApproval env tx nonce timestamp).1 =
      env.keccak256 (signingPreimage tx nonce timestamp) ∧
    (signApproval env tx nonce timestamp).2 =
      env.ecdsaSign (env.keccak256 (signingPreimage tx nonce timestamp)) ∧
    (tx.toAddr = tx2.toAddr → tx.amount = tx2.amount → tx.token = tx2.token →
      nonce = nonce2 → timestamp = timestamp2 →
      signApproval env tx nonce timestamp = signApproval env tx2 nonce2 timestamp2) ∧
    (tx.toAddr.length = tx2.toAddr.length → tx.amount.length = tx2.amount.length →
      tx.token.length = tx2.token.length →
      nonce < U64MOD → nonce2 < U64MOD → timestamp < U64MOD →
      timestamp2 < U64MOD →
      ¬(tx.toAddr = tx2.toAddr ∧ tx.amount = tx2.amount ∧ tx.token = tx2.token ∧
          nonce = nonce2 ∧ timestamp = timestamp2) →
      signingPreimage tx nonce timestamp ≠ signingPreimage tx2 nonce2 timestamp2 ∧
      (Function.Injective env.keccak256 → Function.Injective env.ecdsaSign →
        (signApproval env tx nonce timestamp).2 ≠
          (signApproval env tx2 nonce2 timestamp2).2)) := by
  refine ⟨?_, rfl, rfl, rfl, ?_, ?_⟩
  · simp [signingPreimage, specPreimage]
  · intro h1 h2 h3 h4 h5
    unfold signApproval signingPreimage
    rw [h1, h2, h3, h4, h5]
  · intro h1 h2 h3 hn hn2 ht ht2 hne
    have hpre : signingPreimage tx nonce timestamp ≠
        signingPreimage tx2 nonce2 timestamp2 := by
      intro heq
      exact hne (signingPreimage_inj tx tx2 nonce timestamp nonce2 timestamp2
        h1 h2 h3 hn hn2 ht ht2 heq)
    refine ⟨hpre, fun hk hs heq => ?_⟩
    exact hpre (hk (hs heq))

/-- Witness for C4: determinism on identical fields, and a one-byte change
of `to` changes the preimage and — with the injective identity primitives of
`unitEnv` — the signature. -/
theorem C4_signing_preimage_witness :
    signApproval (unitEnv []) ⟨[1], [2], [3]⟩ 1 2 =
      signApproval (unitEnv []) ⟨[1], [2], [3]⟩ 1 2 ∧
    signingPreimage ⟨[1], [2], [3]⟩ 1 2 ≠ signingPreimage ⟨[9], [2], [3]⟩ 1 2 ∧
    (signApproval (unitEnv []) ⟨[1], [2], [3]⟩ 1 2).2 ≠
      (signApproval (unitEnv []) ⟨[9], [2], [3]⟩ 1 2).2 := by
  have h := (C4_signing_preimage (unitEnv []) ⟨[1], [2], [3]⟩ ⟨[9], [2], [3]⟩
    1 2 1 2).2.2.2.2.2 rfl rfl rfl (by decide) (by decide) (by decide)
    (by decide) (by decide)
  have hdet := (C4_signing_preimage (unitEnv []) ⟨[1], [2], [3]⟩ ⟨[1], [2], [3]⟩
    1 2 1 2).2.2.2.2.1 rfl rfl rfl rfl rfl
  exact ⟨hdet, h.1, h.2 Function.injective_id Function.injective_id⟩

/-- Witness for C5 at a concrete output `[3, 1, 2]`: the selected index is 0
with value 3, agreed by prover and cosigner. -/
theorem C5_argmax_witness :
    argmaxNE 3 [1, 2] = 0 ∧ prover_argmax [(3 : Int), 1, 2] = some (0, 3) := by
  obtain ⟨v, hv, hp, _, _⟩ := C5_argmax_last_occurrence 3 [1, 2]
  have h0 : argmaxNE 3 [1, 2] = 0 := by decide
  rw [h0] at hv hp
  have hv3 : v = 3 := by
    rw [List.getElem?_cons_zero] at hv
    exact (Option.some.inj hv).symm
  subst hv3
  exact ⟨h0, hp⟩

/-- Witness for C10: a denied request leaves the ledger and file untouched;
an approved request increments the counter and returns it as the nonce. -/
theorem C10_nonce_only_on_approval_witness :
    ((verify_proof (unitEnv [1, 2]) ⟨"m"⟩ (reqW "m") ⟨0⟩ true .absent).ns = ⟨0⟩ ∧
     (verify_proof (unitEnv [1, 2]) ⟨"m"⟩ (reqW "m") ⟨0⟩ true .absent).file =
      .absent) ∧
    ((verify_proof (unitEnv [2, 1]) ⟨"m"⟩ (reqW "m") ⟨0⟩ true .absent).ns.counter =
      (0 + 1) % U64MOD ∧
     (verify_proof (unitEnv [2, 1]) ⟨"m"⟩ (reqW "m") ⟨0⟩ true .absent).response.nonce =
      some ((0 + 1) % U64MOD)) :=
  ⟨(C10_nonce_only_on_approval (unitEnv [1, 2]) ⟨"m"⟩ (reqW "m") ⟨0⟩ true
      .absent).1 rfl,
   (C10_nonce_only_on_approval (unitEnv [2, 1]) ⟨"m"⟩ (reqW "m") ⟨0⟩ true
      .absent).2 rfl⟩
